import Mathlib

/-!
Shallow embedding of the sandbox-lifecycle orchestrator of `src/src/App.jsx`
(the `WebContainerComponent`): the one-shot setup routine
(`setupWebContainer`), the install step (`installDependencies`), the
dev-server start and readiness handler (`startDevServer`), the file-sync
write (`writeIndexJS`), the model-upload mount (`handleFileUpload`) and the
file-name sanitizer (`sanitizeFileName`).
-/

namespace Game

/-- Observable lifecycle events of the setup routine of `src/src/App.jsx`
(`setupWebContainer` together with `installDependencies` and
`startDevServer`). -/
inductive Event where
  | boot
  | bootDone
  | setInstance
  | mountStart
  | mountDone
  | setLoading (b : Bool)
  | spawnInstall
  | installChunk (s : String)
  | installExit (code : Int)
  | spawnDev
  | registerReadyHandler
  | throwErr (msg : String)
  deriving DecidableEq, Repr

/-- Event trace of `installDependencies(instance)` (App.jsx lines 37-50):
`setLoading(true)`, `await instance.spawn('npm', ['install'])`, pipe each
output chunk as it arrives, `await installProcess.exit`, `setLoading(false)`,
return the exit code.  The parameters are the chunks the install process
emits before exiting and the exit code it exits with. -/
def installTrace (code : Int) (chunks : List String) : List Event :=
  [Event.setLoading true, Event.spawnInstall]
    ++ chunks.map Event.installChunk
    ++ [Event.installExit code, Event.setLoading false]

/-- Last step of `setupWebContainer` (App.jsx lines 27-31): on a non-zero
install exit code, `throw new Error('Installation failed')`; otherwise
`startDevServer(instance)`, which spawns `npm run dev` and registers the
`server-ready` handler. -/
def setupTail (code : Int) : List Event :=
  if code = 0 then [Event.spawnDev, Event.registerReadyHandler]
  else [Event.throwErr "Installation failed"]

/-- Event trace of `setupWebContainer()` (App.jsx lines 21-32):
`await WebContainer.boot()`, `setWebcontainerInstance(instance)`,
`await instance.mount(files)`, then the install step, then `setupTail`. -/
def setupTrace (code : Int) (chunks : List String) : List Event :=
  [Event.boot, Event.bootDone, Event.setInstance, Event.mountStart, Event.mountDone]
    ++ installTrace code chunks
    ++ setupTail code

/-- The seven events of the setup trace that precede the install process
output. -/
def setupPre : List Event :=
  [Event.boot, Event.bootDone, Event.setInstance, Event.mountStart, Event.mountDone,
   Event.setLoading true, Event.spawnInstall]

lemma setupTrace_eq (code : Int) (chunks : List String) :
    setupTrace code chunks =
      setupPre ++ (chunks.map Event.installChunk
        ++ ([Event.installExit code, Event.setLoading false] ++ setupTail code)) := by
  simp [setupTrace, installTrace, setupPre]

lemma setupPre_length : setupPre.length = 7 := rfl

lemma setupTrace_get?_shift (code : Int) (chunks : List String) (n : Nat) :
    (setupTrace code chunks).get? (n + 7) =
      (chunks.map Event.installChunk
        ++ ([Event.installExit code, Event.setLoading false] ++ setupTail code)).get? n := by
  rw [setupTrace_eq, List.get?_append_right (by rw [setupPre_length]; omega)]
  rw [setupPre_length]
  simp

lemma mountStart_idx (code : Int) (chunks : List String) :
    ∀ i, (setupTrace code chunks).get? i = some Event.mountStart → i = 3 := by
  intro i h
  match i with
  | 0 | 1 | 2 | 4 | 5 | 6 => simp [setupTrace, installTrace, setupTail] at h
  | 3 => rfl
  | (n+7) =>
    exfalso
    rw [setupTrace_get?_shift] at h
    have hm := List.get?_mem h
    by_cases hc : code = 0 <;>
      simp [hc, setupTail, List.mem_append, List.mem_map] at hm

lemma spawnInstall_idx (code : Int) (chunks : List String) :
    ∀ i, (setupTrace code chunks).get? i = some Event.spawnInstall → i = 6 := by
  intro i h
  match i with
  | 0 | 1 | 2 | 3 | 4 | 5 => simp [setupTrace, installTrace, setupTail] at h
  | 6 => rfl
  | (n+7) =>
    exfalso
    rw [setupTrace_get?_shift] at h
    have hm := List.get?_mem h
    by_cases hc : code = 0 <;>
      simp [hc, setupTail, List.mem_append, List.mem_map] at hm

lemma spawnDev_code_zero (code : Int) (chunks : List String) (i : Nat)
    (h : (setupTrace code chunks).get? i = some Event.spawnDev) : code = 0 := by
  by_contra hc
  have hm := List.get?_mem h
  simp [setupTrace, installTrace, setupTail, hc, List.mem_append, List.mem_map] at hm

lemma installExit_at (code : Int) (chunks : List String) :
    (setupTrace code chunks).get? (7 + chunks.length) = some (Event.installExit code) := by
  rw [show 7 + chunks.length = chunks.length + 7 by omega, setupTrace_get?_shift]
  rw [List.get?_append_right (by simp)]
  simp

lemma spawnDev_idx (chunks : List String) :
    ∀ i, (setupTrace 0 chunks).get? i = some Event.spawnDev → i = 9 + chunks.length := by
  intro i h
  match i with
  | 0 | 1 | 2 | 3 | 4 | 5 | 6 => simp [setupTrace, installTrace, setupTail] at h
  | (n+7) =>
    rw [setupTrace_get?_shift] at h
    by_cases hn : n < chunks.length
    · exfalso
      rw [List.get?_append (by simpa using hn)] at h
      have hm := List.get?_mem h
      simp [List.mem_map] at hm
    · push_neg at hn
      rw [List.get?_append_right (by simpa using hn)] at h
      simp only [List.length_map] at h
      have h2 : n - chunks.length = 2 := by
        rcases hd : n - chunks.length with _ | _ | _ | _ | m <;>
          rw [hd] at h <;> simp_all [setupTail, List.get?]
      omega

/-- C1: in every run of the setup routine, whatever output the install
process produces and whatever its exit code is, `mount` never starts before
`boot`'s result is available, the install spawn never starts before `mount`
completes, and the dev-server spawn never starts before the install exit
code is known to be 0: every occurrence of the later event in the trace of
`setupWebContainer` is preceded by an occurrence of the earlier one. -/
theorem setup_sequencing (code : Int) (chunks : List String) :
    (∀ i, (setupTrace code chunks).get? i = some Event.mountStart →
        ∃ j, j < i ∧ (setupTrace code chunks).get? j = some Event.bootDone) ∧
    (∀ i, (setupTrace code chunks).get? i = some Event.spawnInstall →
        ∃ j, j < i ∧ (setupTrace code chunks).get? j = some Event.mountDone) ∧
    (∀ i, (setupTrace code chunks).get? i = some Event.spawnDev →
        ∃ j, j < i ∧ (setupTrace code chunks).get? j = some (Event.installExit 0)) := by
  refine ⟨fun i h => ?_, fun i h => ?_, fun i h => ?_⟩
  · have := mountStart_idx code chunks i h
    subst this
    exact ⟨1, by omega, rfl⟩
  · have := spawnInstall_idx code chunks i h
    subst this
    exact ⟨4, by omega, rfl⟩
  · have hc := spawnDev_code_zero code chunks i h
    subst hc
    have := spawnDev_idx chunks i h
    subst this
    exact ⟨7 + chunks.length, by omega, installExit_at 0 chunks⟩

/-- Terminal result of the setup routine.  `Outcome.installFailed` is the
`InstallFailed` phase with its exit code that the spec describes; the code of
`setupWebContainer` never produces it, constructing
`Outcome.thrown "Installation failed"` instead. -/
inductive Outcome where
  | ready
  | installFailed (exitCode : Int)
  | thrown (msg : String)
  deriving DecidableEq, Repr

/-- What a run of `setupWebContainer` leaves behind: the terminal outcome,
the final value of the `loading` flag, and whether `npm run dev` was
spawned. -/
structure SetupResult where
  outcome : Outcome
  loading : Bool
  devSpawned : Bool
  deriving DecidableEq, Repr

/-- Terminal state of `setupWebContainer()` (App.jsx lines 21-32) as a
function of the install exit code: `installDependencies` runs
`setLoading(false)` after the exit code arrives and returns it; then
`if (exitCode !== 0) { throw new Error('Installation failed'); }` else
`startDevServer(instance)`. -/
def runSetup (code : Int) : SetupResult :=
  if code ≠ 0 then
    { outcome := Outcome.thrown "Installation failed", loading := false, devSpawned := false }
  else
    { outcome := Outcome.ready, loading := false, devSpawned := true }

/-- The two renderings of the right pane of the component (App.jsx lines
179-187): `loading ? <div>Installing dependencies...</div> : <iframe/>`.
There is no error rendering. -/
inductive View where
  | loadingView
  | iframeView
  deriving DecidableEq, Repr

/-- `{loading ? ... : ...}` of the JSX (App.jsx lines 179-187). -/
def render (loading : Bool) : View :=
  if loading then View.loadingView else View.iframeView

/-- C2, counterexample: when the install process exits with code 1, the
dev-server spawn is indeed never invoked, but the routine does not terminate
in an `InstallFailed` state carrying exit code 1: it terminates by throwing
the fixed error `'Installation failed'`, which carries no exit code. -/
theorem install_failure_no_exitcode_counterexample :
    (runSetup 1).devSpawned = false ∧
    (runSetup 1).outcome = Outcome.thrown "Installation failed" ∧
    (runSetup 1).outcome ≠ Outcome.installFailed 1 := by
  refine ⟨rfl, rfl, ?_⟩
  simp [runSetup]

/-- C2, amended: if the install process exits with a non-zero code, the
dev-server spawn is never invoked and the setup routine terminates by
throwing an error with the fixed message `'Installation failed'`; that error
does not carry the exit code (the result is the same for every non-zero
code). -/
theorem install_failure_halts (code : Int) (chunks : List String) (h : code ≠ 0) :
    Event.spawnDev ∉ setupTrace code chunks ∧
    (runSetup code).outcome = Outcome.thrown "Installation failed" ∧
    (runSetup code).devSpawned = false ∧
    (∀ c, c ≠ 0 → runSetup c = runSetup code) := by
  refine ⟨?_, by simp [runSetup, h], by simp [runSetup, h], ?_⟩
  · simp [setupTrace, installTrace, setupTail, h, List.mem_append, List.mem_map]
  · intro c hc
    simp [runSetup, hc, h]

/-- Witness for `install_failure_halts` at exit code 1. -/
theorem install_failure_halts_witness :
    Event.spawnDev ∉ setupTrace 1 ["npm warn"] ∧
    (runSetup 1).outcome = Outcome.thrown "Installation failed" := by
  have h := install_failure_halts 1 ["npm warn"] (by decide)
  exact ⟨h.1, h.2.1⟩

/-- C7: evaluation at the failing input.  When install exits with code 1,
the terminal lifecycle failure is not captured as data: the routine ends in
a thrown error, the component's `loading` flag is already false again, so
the caller renders the plain iframe view — the component has no error view
at all (`View` has only the loading and iframe renderings) and the
`InstallFailed`-with-exit-code phase is never produced. -/
theorem lifecycle_failure_is_uncaught_throw :
    runSetup 1 = { outcome := Outcome.thrown "Installation failed",
                   loading := false, devSpawned := false } ∧
    render (runSetup 1).loading = View.iframeView ∧
    render (runSetup 1).loading ≠ View.loadingView ∧
    (runSetup 1).outcome ≠ Outcome.installFailed 1 ∧
    (∀ v : View, v = View.loadingView ∨ v = View.iframeView) := by
  refine ⟨rfl, rfl, by simp [render, runSetup], by simp [runSetup], ?_⟩
  intro v
  cases v <;> simp

/-- How many times each external operation has been invoked in the current
session. -/
structure CallCounts where
  boot : Nat
  mount : Nat
  installSpawn : Nat
  devSpawn : Nat
  deriving DecidableEq, Repr

/-- Component state relevant to the one-shot guard: the `initialized` flag
(App.jsx line 12) and the running call counts. -/
structure ComponentSt where
  initialized : Bool
  counts : CallCounts
  deriving DecidableEq, Repr

/-- Calls one run of `setupWebContainer` performs: one `boot`, one `mount`,
one install spawn, and one dev-server spawn when the install exit code is
0. -/
def setupCalls (code : Int) (c : CallCounts) : CallCounts :=
  { boot := c.boot + 1, mount := c.mount + 1, installSpawn := c.installSpawn + 1,
    devSpawn := if code = 0 then c.devSpawn + 1 else c.devSpawn }

/-- The `useEffect` body (App.jsx lines 17-35):
`if (initialized) return; setInitialized(true); ... setupWebContainer();` -/
def effectRun (code : Int) (st : ComponentSt) : ComponentSt :=
  if st.initialized then st
  else { initialized := true, counts := setupCalls code st.counts }

/-- Fresh session: `useState(false)` for `initialized`, nothing called
yet. -/
def initialComponentSt : ComponentSt :=
  { initialized := false, counts := ⟨0, 0, 0, 0⟩ }

/-- State after `n` invocations of the effect in one session. -/
def runEffects (code : Int) : Nat → ComponentSt
  | 0 => initialComponentSt
  | n + 1 => effectRun code (runEffects code n)

lemma runEffects_one (code : Int) :
    runEffects code 1 = { initialized := true, counts := setupCalls code ⟨0, 0, 0, 0⟩ } := by
  simp [runEffects, effectRun, initialComponentSt]

lemma runEffects_stable (code : Int) : ∀ n, 1 ≤ n → runEffects code n = runEffects code 1 := by
  intro n
  induction n with
  | zero => intro h; omega
  | succ n ih =>
    intro _
    rcases Nat.eq_zero_or_pos n with h0 | h0
    · subst h0; rfl
    · show effectRun code (runEffects code n) = runEffects code 1
      rw [ih h0, runEffects_one]
      simp [effectRun]

/-- C3: re-invoking the guarded effect any further time within one session
is a no-op — after any positive number of invocations the state equals the
state after one invocation, and `boot`, `mount` and each spawn have been
called exactly once (the dev-server spawn once when the install exit code
is 0, and never otherwise). -/
theorem start_idempotent (code : Int) (n : Nat) (h : 1 ≤ n) :
    runEffects code n = runEffects code 1 ∧
    (runEffects code n).counts.boot = 1 ∧
    (runEffects code n).counts.mount = 1 ∧
    (runEffects code n).counts.installSpawn = 1 ∧
    (runEffects code n).counts.devSpawn = (if code = 0 then 1 else 0) := by
  have hs := runEffects_stable code n h
  rw [hs, runEffects_one]
  refine ⟨rfl, rfl, rfl, rfl, ?_⟩
  simp [setupCalls]

/-- Witness for `start_idempotent` at five invocations of a successful
session. -/
theorem start_idempotent_witness :
    runEffects 0 5 = runEffects 0 1 ∧ (runEffects 0 5).counts.boot = 1 := by
  have h := start_idempotent 0 5 (by decide)
  exact ⟨h.1, h.2.1⟩

/-- The sandbox's writable file interface, as the sequence of writes applied
to it; a later write to a path shadows an earlier one. -/
abbrev SandboxFS := List (String × String)

/-- `webcontainerInstance.fs.writeFile(path, content)`. -/
def fsWriteFile (fs : SandboxFS) (path content : String) : SandboxFS :=
  (path, content) :: fs

/-- Reading a path back from the sandbox's file interface: the most recent
write to the path, if any. -/
def fsReadFile (fs : SandboxFS) (path : String) : Option String :=
  (fs.find? (fun e => e.1 == path)).map (fun e => e.2)

/-- The piece of component state `writeIndexJS` consults: the
`webcontainerInstance` React state (App.jsx line 11), which is `null` until
`WebContainer.boot()` has resolved and `setWebcontainerInstance(instance)`
has taken effect, and the booted sandbox's file system once it exists. -/
structure SyncSt where
  webcontainerInstance : Option SandboxFS
  deriving DecidableEq, Repr

/-- `writeIndexJS(content)` (App.jsx lines 62-66):
`if (webcontainerInstance) { await webcontainerInstance.fs.writeFile('/App.jsx', content); }`.
The result is `Except.ok` in both branches: the guard makes the pre-boot
call a silent no-op rather than an error. -/
def writeIndexJS (st : SyncSt) (content : String) : Except String SyncSt :=
  match st.webcontainerInstance with
  | none => Except.ok st
  | some fs => Except.ok { webcontainerInstance := some (fsWriteFile fs "/App.jsx" content) }

/-- C4: a push for the editable path invoked before boot resolves leaves the
state unchanged and raises no exception, and any push invoked after boot has
resolved performs the write, which is then visible through the sandbox's
file interface. -/
theorem push_before_boot_dropped (st : SyncSt) (content : String)
    (h : st.webcontainerInstance = none) :
    writeIndexJS st content = Except.ok st ∧
    (∀ (st' : SyncSt) (fs : SandboxFS) (c : String),
      st'.webcontainerInstance = some fs →
      ∃ fs', writeIndexJS st' c = Except.ok { webcontainerInstance := some fs' } ∧
        fsReadFile fs' "/App.jsx" = some c) := by
  constructor
  · simp [writeIndexJS, h]
  · intro st' fs c h'
    refine ⟨fsWriteFile fs "/App.jsx" c, ?_, ?_⟩
    · simp [writeIndexJS, h']
    · simp [fsReadFile, fsWriteFile, List.find?]

/-- Witness for `push_before_boot_dropped`: a pre-boot push of new content
is dropped without error, and a post-boot push of the same path lands in the
file interface. -/
theorem push_before_boot_dropped_witness :
    writeIndexJS ⟨none⟩ "new content" = Except.ok ⟨none⟩ ∧
    (∃ fs', writeIndexJS ⟨some []⟩ "new content" =
        Except.ok { webcontainerInstance := some fs' } ∧
      fsReadFile fs' "/App.jsx" = some "new content") := by
  have h := push_before_boot_dropped ⟨none⟩ "new content" rfl
  exact ⟨h.1, h.2 ⟨some []⟩ [] "new content" rfl⟩

/-- State the `server-ready` handler acts on: whether the iframe is rendered
(`iframeRef.current` non-null), its current `src`, and the console log. -/
structure DevServerSt where
  iframePresent : Bool
  iframeSrc : Option String
  consoleLines : List String
  deriving DecidableEq, Repr

/-- The `server-ready` handler registered by `startDevServer` (App.jsx lines
54-59): `(port, url) => { if (iframeRef.current) { iframeRef.current.src =
url + '/'; } console.log(url); }`. -/
def serverReadyHandler (st : DevServerSt) (ev : Nat × String) : DevServerSt :=
  let st₁ :=
    if st.iframePresent then { st with iframeSrc := some (ev.2 ++ "/") } else st
  { st₁ with consoleLines := st₁.consoleLines ++ [ev.2] }

/-- A sequence of `server-ready` events delivered to the registered
handler, in order. -/
def fireReadyEvents (st : DevServerSt) (evs : List (Nat × String)) : DevServerSt :=
  evs.foldl serverReadyHandler st

lemma serverReadyHandler_iframePresent (st : DevServerSt) (ev : Nat × String) :
    (serverReadyHandler st ev).iframePresent = st.iframePresent := by
  simp only [serverReadyHandler]
  split <;> rfl

lemma fireReadyEvents_iframePresent (st : DevServerSt) (evs : List (Nat × String)) :
    (fireReadyEvents st evs).iframePresent = st.iframePresent := by
  induction evs generalizing st with
  | nil => rfl
  | cons e rest ih =>
    show (fireReadyEvents (serverReadyHandler st e) rest).iframePresent = _
    rw [ih, serverReadyHandler_iframePresent]

/-- C5: at most one live address is exposed at a time — after any sequence
of readiness events the iframe's `src` is determined by the last event
alone, and in particular after `(3000, "http://a")` followed by
`(3000, "http://b")` the exposed address is the one of the second event,
never the one of the first. -/
theorem readiness_overwrite (st : DevServerSt) (h : st.iframePresent = true)
    (evs : List (Nat × String)) (p : Nat) (u : String) :
    (fireReadyEvents st (evs ++ [(p, u)])).iframeSrc = some (u ++ "/") ∧
    (fireReadyEvents st [(3000, "http://a"), (3000, "http://b")]).iframeSrc =
      some ("http://b" ++ "/") ∧
    (fireReadyEvents st [(3000, "http://a"), (3000, "http://b")]).iframeSrc ≠
      some ("http://a" ++ "/") := by
  have hp : (fireReadyEvents st evs).iframePresent = true := by
    rw [fireReadyEvents_iframePresent, h]
  refine ⟨?_, ?_, ?_⟩
  · rw [fireReadyEvents, List.foldl_append]
    show (serverReadyHandler (fireReadyEvents st evs) (p, u)).iframeSrc = _
    simp [serverReadyHandler, hp]
  · simp [fireReadyEvents, serverReadyHandler, h]
  · simp [fireReadyEvents, serverReadyHandler, h]

/-- Witness for `readiness_overwrite` on a concrete state with the iframe
rendered. -/
theorem readiness_overwrite_witness :
    (fireReadyEvents ⟨true, none, []⟩ ([] ++ [(5173, "http://x.local")])).iframeSrc =
      some ("http://x.local" ++ "/") ∧
    (fireReadyEvents ⟨true, none, []⟩ [(3000, "http://a"), (3000, "http://b")]).iframeSrc =
      some ("http://b" ++ "/") :=
  ⟨(readiness_overwrite ⟨true, none, []⟩ rfl [] 5173 "http://x.local").1,
   (readiness_overwrite ⟨true, none, []⟩ rfl [] 5173 "http://x.local").2.1⟩

/-- Where an install-output chunk can be delivered: to the console (what the
code does) or to a sink supplied by the hosting application (what the spec
describes; nothing in the component ever produces it). -/
inductive SinkEffect where
  | consoleLog (chunk : String)
  | hostSink (chunk : String)
  deriving DecidableEq, Repr

/-- The piping of `installDependencies` (App.jsx lines 40-46):
`installProcess.output.pipeTo(new WritableStream({ write(data) {
console.log(data); } }))` — each arriving chunk is handed, in order, to the
`WritableStream`'s `write`, whose body is `console.log(data)`. -/
def installPipe : List String → List SinkEffect
  | [] => []
  | c :: rest => SinkEffect.consoleLog c :: installPipe rest

/-- Following the spec's words (§4.1 step 3, §6 Inbound): pipe each chunk,
in arrival order, into the sink supplied by the hosting application at
orchestrator construction. -/
def installPipeHostSupplied (sink : String → SinkEffect) : List String → List SinkEffect
  | [] => []
  | c :: rest => sink c :: installPipeHostSupplied sink rest

lemma installPipe_eq_map (chunks : List String) :
    installPipe chunks = chunks.map SinkEffect.consoleLog := by
  induction chunks with
  | nil => rfl
  | cons c rest ih => simp [installPipe, ih]

lemma installPipeHostSupplied_eq_map (sink : String → SinkEffect) (chunks : List String) :
    installPipeHostSupplied sink chunks = chunks.map sink := by
  induction chunks with
  | nil => rfl
  | cons c rest ih => simp [installPipeHostSupplied, ih]

/-- C6, counterexample: the install step's sink is not supplied by the
hosting application — on the chunk `"added 1 package"` the code delivers a
console-log effect, which differs from what piping into a host-supplied
sink would deliver. -/
theorem install_sink_fixed_counterexample :
    installPipe ["added 1 package"] = [SinkEffect.consoleLog "added 1 package"] ∧
    installPipe ["added 1 package"] ≠
      installPipeHostSupplied SinkEffect.hostSink ["added 1 package"] := by
  constructor
  · rfl
  · simp [installPipe, installPipeHostSupplied]

/-- C6, amended: the install step pipes the install process's output chunk
by chunk, in arrival order, without loss or reordering — the i-th delivered
effect carries the i-th arriving chunk — into the console-logging sink that
is fixed inside the component itself; every delivered effect is a console
log. -/
theorem install_pipe_console_in_order (chunks : List String) :
    (installPipe chunks).length = chunks.length ∧
    (∀ i, (installPipe chunks).get? i = (chunks.get? i).map SinkEffect.consoleLog) ∧
    (∀ e ∈ installPipe chunks, ∃ s ∈ chunks, e = SinkEffect.consoleLog s) := by
  rw [installPipe_eq_map]
  refine ⟨by simp, fun i => ?_, fun e he => ?_⟩
  · simp [List.get?_map]
  · rcases List.mem_map.mp he with ⟨s, hs, rfl⟩
    exact ⟨s, hs, rfl⟩

/-- What a subscriber attached to a spawned process can observe: an output
chunk or the exit outcome. -/
inductive ProcEvent where
  | chunk (s : String)
  | exited (code : Int)
  deriving DecidableEq, Repr

/-- One spawned process: the output chunks it emits before it exits, in
emission order, and its exit code. -/
structure ProcessRun where
  chunks : List String
  exitCode : Int

/-- Modelled from the spec: the ProcessHandle output/exit semantics of §4.2
are implemented by the sandbox runtime (`@webcontainer/api`), whose code is
not part of this repository — `src/src/App.jsx` only consumes the handle
(`installProcess.output.pipeTo(...)`, `await installProcess.exit`).  A
process that emits its chunks and then exits delivers to a subscriber
attached at spawn time each chunk, in emission order, followed by exactly
one exit event. -/
def processDelivery (p : ProcessRun) : List ProcEvent :=
  p.chunks.map ProcEvent.chunk ++ [ProcEvent.exited p.exitCode]

/-- The chunks a subscriber observes in a delivery sequence. -/
def observedChunks (evs : List ProcEvent) : List String :=
  evs.filterMap (fun e => match e with | ProcEvent.chunk s => some s | _ => none)

/-- C8: for any process emitting N chunks before exiting, a subscriber
attached at spawn time observes exactly those N chunks in emission order;
the delivery sequence has length N + 1, the exit outcome sits at position N
— strictly after the N chunks — and every exit event in the sequence is
that one, so no chunk is dropped, reordered, or delivered after exit. -/
theorem process_output_no_loss (p : ProcessRun) :
    observedChunks (processDelivery p) = p.chunks ∧
    (processDelivery p).length = p.chunks.length + 1 ∧
    (processDelivery p).get? p.chunks.length = some (ProcEvent.exited p.exitCode) ∧
    (∀ i c, (processDelivery p).get? i = some (ProcEvent.exited c) →
      i = p.chunks.length ∧ c = p.exitCode) := by
  refine ⟨?_, by simp [processDelivery], ?_, ?_⟩
  · simp [observedChunks, processDelivery, List.filterMap_append, List.filterMap_map]
    exact List.filterMap_some ..
  · rw [processDelivery, List.get?_append_right (by simp)]
    simp
  · intro i c h
    rcases lt_trichotomy i p.chunks.length with hi | hi | hi
    · exfalso
      rw [processDelivery, List.get?_append (by simpa using hi)] at h
      have hm := List.get?_mem h
      simp [List.mem_map] at hm
    · subst hi
      rw [processDelivery, List.get?_append_right (by simp)] at h
      simp at h
      exact ⟨rfl, h.symm⟩
    · exfalso
      have hn : (processDelivery p).get? i = none :=
        List.get?_eq_none.mpr (by simp [processDelivery]; omega)
      rw [hn] at h
      cases h

/-- File names and file paths as their sequences of UTF-16 code units,
which is what the JavaScript string operations of `sanitizeFileName` act
on. -/
abbrev CodeUnits := List Nat

/-- `sanitizeFileName` (App.jsx lines 87-89), per code unit:
`fileName.replace(/[^a-z0-9]/gi, '_').toLowerCase()` keeps an ASCII
lowercase letter (97-122) or digit (48-57) unchanged, keeps an ASCII
uppercase letter (65-90) through the case-insensitive character class and
then lowercases it (+32), and replaces every other code unit by an
underscore (95), which `toLowerCase` leaves unchanged. -/
def sanitizeCode (c : Nat) : Nat :=
  if (97 ≤ c ∧ c ≤ 122) ∨ (48 ≤ c ∧ c ≤ 57) then c
  else if 65 ≤ c ∧ c ≤ 90 then c + 32
  else 95

/-- `sanitizeFileName(fileName)` over the whole name. -/
def sanitizeFileName (name : CodeUnits) : CodeUnits :=
  name.map sanitizeCode

/-- The path under which `handleFileUpload` mounts an uploaded file
(App.jsx lines 73-76): `` fileContents[`/${sanitizedFileName}`] `` — a
slash (47) followed by the sanitized name. -/
def uploadMountPath (name : CodeUnits) : CodeUnits :=
  47 :: sanitizeFileName name

/-- All paths `handleFileUpload` mounts for a list of uploaded file
names. -/
def uploadMountPaths (names : List CodeUnits) : List CodeUnits :=
  names.map uploadMountPath

/-- Is a code unit an ASCII lowercase letter, an ASCII digit, or an
underscore? -/
def isSanitizedCode (c : Nat) : Bool :=
  (97 ≤ c && c ≤ 122) || (48 ≤ c && c ≤ 57) || (c == 95)

lemma sanitizeCode_sanitized (c : Nat) : isSanitizedCode (sanitizeCode c) = true := by
  rw [sanitizeCode, isSanitizedCode]
  split
  · rename_i h
    simp only [Bool.or_eq_true, Bool.and_eq_true, decide_eq_true_eq, beq_iff_eq]
    omega
  · split
    · rename_i h
      simp only [Bool.or_eq_true, Bool.and_eq_true, decide_eq_true_eq, beq_iff_eq]
      omega
    · rfl

/-- C10: for every input file name, the mounted path is a slash followed by
the per-code-unit sanitized form of the name, the sanitized form has the
same length as the input, its i-th code unit is the sanitized i-th code
unit of the input, and every code unit of the sanitized form is an ASCII
lowercase letter, an ASCII digit, or an underscore. -/
theorem upload_path_sanitized (name : CodeUnits) :
    uploadMountPath name = 47 :: sanitizeFileName name ∧
    (sanitizeFileName name).length = name.length ∧
    (∀ i, (sanitizeFileName name).get? i = (name.get? i).map sanitizeCode) ∧
    (∀ c ∈ sanitizeFileName name,
      (97 ≤ c ∧ c ≤ 122) ∨ (48 ≤ c ∧ c ≤ 57) ∨ c = 95) := by
  refine ⟨rfl, by simp [sanitizeFileName], fun i => ?_, fun c hc => ?_⟩
  · simp [sanitizeFileName, List.get?_map]
  · rcases List.mem_map.mp hc with ⟨d, _, rfl⟩
    have h := sanitizeCode_sanitized d
    simp only [isSanitizedCode, Bool.or_eq_true, Bool.and_eq_true,
      decide_eq_true_eq, beq_iff_eq] at h
    tauto

/-- The editable path `'/App.jsx'` that `writeIndexJS` writes, as code
units. -/
def editablePathCodes : CodeUnits := [47, 65, 112, 112, 46, 106, 115, 120]

lemma editablePathCodes_eq : editablePathCodes = "/App.jsx".data.map Char.toNat := by
  decide

lemma uploadMountPath_ne_editable (name : CodeUnits) :
    uploadMountPath name ≠ editablePathCodes := by
  intro h
  rw [uploadMountPath, editablePathCodes] at h
  injection h with h1 h2
  cases name with
  | nil => simp [sanitizeFileName] at h2
  | cons d rest =>
    rw [sanitizeFileName, List.map_cons] at h2
    injection h2 with h3 h4
    have h := sanitizeCode_sanitized d
    rw [h3] at h
    simp [isSanitizedCode] at h

/-- C9: after mount, the only writers into the sandbox are the file-sync
channel (`writeIndexJS`, which writes exactly the editable path
`'/App.jsx'`) and the upload handler (`handleFileUpload`, which mounts only
slash-plus-sanitized-name paths); no mounted upload path ever equals the
editable path, so no two components write to the same sandbox path. -/
theorem no_write_write_conflict (names : List CodeUnits) :
    (∀ p ∈ uploadMountPaths names, p ≠ editablePathCodes) ∧
    List.Disjoint (uploadMountPaths names) [editablePathCodes] ∧
    editablePathCodes = "/App.jsx".data.map Char.toNat ∧
    (∀ (fs : SandboxFS) (c : String),
      writeIndexJS ⟨some fs⟩ c =
        Except.ok ⟨some (fsWriteFile fs "/App.jsx" c)⟩) := by
  refine ⟨fun p hp => ?_, fun p hp hq => ?_, editablePathCodes_eq, fun fs c => rfl⟩
  · rcases List.mem_map.mp hp with ⟨n, _, rfl⟩
    exact uploadMountPath_ne_editable n
  · rcases List.mem_map.mp hp with ⟨n, _, rfl⟩
    simp only [List.mem_singleton] at hq
    exact uploadMountPath_ne_editable n hq

end Game
